import Mathlib

namespace Banyan

/-! Shallow embedding of the core of the skywalking-banyandb sources under
verification: the `tsdb` series database (entity paths, the series directory
over a metadata key-value store, the block `span`) and the `logical`
index-scan planner (`unresolvedIndexScan.Analyze`, the local plan's `Equal`
and `String`). Bytes are modelled as `List Nat`; the 64-bit hash of
`pkg/convert` lives outside the given sources, so every function that uses it
takes the hash function as an explicit parameter. -/

/-- Entry (tsdb.Entry): an opaque byte string; `none` models the `nil`
sentinel `AnyEntry`. -/
abbrev Entry := Option (List Nat)

/-- Entity (tsdb.Entity): ordered sequence of entries. -/
abbrev Entity := List Entry

/-- Entity.Marshal: bytes.Join of the raw entries (a nil entry contributes
no bytes). -/
def entityMarshal (e : Entity) : List Nat :=
  (e.map (fun o => o.getD [])).flatten

/-- convert.BytesToUint64: big-endian decoding of the stored bytes into a
64-bit number. -/
def bytesToUint64 (b : List Nat) : Nat :=
  (b.foldl (fun a x => a * 256 + x) 0) % (2 ^ 64)

/-- bytesConvSeriesID: common.SeriesID obtained from stored bytes. -/
def bytesConvSeriesID (b : List Nat) : Nat := bytesToUint64 b

/-- zeroIntBytes: convert.Uint64ToBytes of zero, eight zero bytes. -/
def zeroIntBytes : List Nat := List.replicate 8 0

/-- maxIntBytes: convert.Uint64ToBytes of the maximal uint64, eight 0xFF
bytes. -/
def maxIntBytes : List Nat := List.replicate 8 255

/-- Path (tsdb.Path). The Go field `prefix` is named `pfx` here. -/
structure Path where
  pfx : List Nat
  mask : List Nat
  template : List Nat
  isFull : Bool
deriving DecidableEq

/-- Loop state of tsdb.NewPath: the accumulated mask and template, the
`offset` into the template delimiting the leading concrete run, and the
`encounterAny` flag. -/
structure PathAcc where
  mask : List Nat
  template : List Nat
  offset : Nat
  encounterAny : Bool

/-- One iteration of the loop body of tsdb.NewPath. -/
def newPathStep (hash : List Nat → List Nat) (acc : PathAcc) (e : Entry) : PathAcc :=
  match e with
  | none =>
      { acc with
        mask := acc.mask ++ zeroIntBytes
        template := acc.template ++ zeroIntBytes
        encounterAny := true }
  | some b =>
      { mask := acc.mask ++ maxIntBytes
        template := acc.template ++ hash b
        offset := if acc.encounterAny then acc.offset else acc.offset + 8
        encounterAny := acc.encounterAny }

/-- The loop of tsdb.NewPath over the entries. -/
def newPathAux (hash : List Nat → List Nat) : PathAcc → List Entry → PathAcc
  | acc, [] => acc
  | acc, e :: rest => newPathAux hash (newPathStep hash acc e) rest

/-- tsdb.NewPath: build the prefix/mask/template path of an entity. -/
def NewPath (hash : List Nat → List Nat) (entries : List Entry) : Path :=
  let acc := newPathAux hash ⟨[], [], 0, false⟩ entries
  { pfx := acc.template.take acc.offset
    mask := acc.mask
    template := acc.template
    isFull := !acc.encounterAny }

/-- The template bytes one entry contributes: eight zero bytes for ANY,
the entry's hash otherwise. -/
def templChunk (hash : List Nat → List Nat) : Entry → List Nat
  | none => zeroIntBytes
  | some b => hash b

/-- The mask bytes one entry contributes: eight zero bytes for ANY, eight
0xFF bytes otherwise. -/
def maskChunk : Entry → List Nat
  | none => zeroIntBytes
  | some _ => maxIntBytes

/-- tsdb.HashEntity: concatenation of the per-entry hashes (the hash of a
nil entry is the hash of the empty byte string). -/
def HashEntity (hash : List Nat → List Nat) (entity : Entity) : List Nat :=
  (entity.map (fun e => hash (e.getD []))).flatten

/-- Outcome of a point get on the metadata store: a value, the sentinel
kv.ErrKeyNotFound, or any other store failure (identified by a code). -/
inductive GetOutcome where
  | found (v : List Nat)
  | notFound
  | failed (code : Nat)
deriving DecidableEq

/-- Association-list lookup for the store contents. -/
def klookup : List (List Nat × List Nat) → List Nat → Option (List Nat)
  | [], _ => none
  | kv :: rest, k => if kv.1 = k then some kv.2 else klookup rest k

/-- Association-list insert-or-replace for the store contents. -/
def kput : List (List Nat × List Nat) → List Nat → List Nat → List (List Nat × List Nat)
  | [], k, v => [(k, v)]
  | kv :: rest, k, v => if kv.1 = k then (k, v) :: rest else kv :: kput rest k v

/-- The series-metadata key-value store (kv.Store is external to the given
sources). `entries` lists the stored pairs in scan order; the `getFail`,
`putFail`, `valFail` and `scanFail` fields inject the store-level failures
the Go interface may surface. -/
structure KVStore where
  entries : List (List Nat × List Nat)
  getFail : List Nat → Option Nat
  putFail : List Nat → Option Nat
  valFail : List Nat → Option Nat
  scanFail : Option Nat

/-- kv.Store.Get: an injected failure, else the stored value, else
ErrKeyNotFound. -/
def KVStore.get (s : KVStore) (k : List Nat) : GetOutcome :=
  match s.getFail k with
  | some e => .failed e
  | none =>
      match klookup s.entries k with
      | some v => .found v
      | none => .notFound

/-- kv.Store.Put: an injected failure, else insert-or-replace. -/
def KVStore.put (s : KVStore) (k v : List Nat) : Except Nat KVStore :=
  match s.putFail k with
  | some e => .error e
  | none => .ok { s with entries := kput s.entries k v }

/-- seriesDB.GetByHashKey: look the hashed entity key up; on ErrKeyNotFound
store hash(key) as the series id under the key and return the new series.
The returned series is its id (newSeries carries only the id and handles). -/
def GetByHashKey (hash : List Nat → List Nat) (s : KVStore) (key : List Nat) :
    Except Nat (Nat × KVStore) :=
  match s.get key with
  | .failed e => .error e
  | .found v => .ok (bytesConvSeriesID v, s)
  | .notFound =>
      let seriesID := hash key
      match s.put key seriesID with
      | .error e => .error e
      | .ok s2 => .ok (bytesConvSeriesID seriesID, s2)

/-- seriesDB.Get: hash the entity and defer to GetByHashKey. -/
def seriesGet (hash : List Nat → List Nat) (s : KVStore) (entity : Entity) :
    Except Nat (Nat × KVStore) :=
  GetByHashKey hash s (HashEntity hash entity)

/-- Byte-string prefix test used by the metadata scan. -/
def leadsWith : List Nat → List Nat → Bool
  | [], _ => true
  | _ :: _, [] => false
  | a :: as, b :: bs => a == b && leadsWith as bs

/-- The masked comparison key of the scan callback of seriesDB.List:
comparableKey[i] = mask[i] & key[i], over the bytes of the key. The Go code
indexes the mask by key positions and panics past its end, so the model is
meaningful for keys no longer than the mask. -/
def maskedKey (mask k : List Nat) : List Nat :=
  List.zipWith (fun b m => Nat.land m b) k mask

/-- The admission test of the scan callback: the masked key bytes equal the
template. -/
def maskMatches (p : Path) (kv : List Nat × List Nat) : Bool :=
  decide (p.template = maskedKey p.mask kv.1)

/-- The scan callback of seriesDB.List on one scanned pair: admit the
series when the masked key equals the template, collecting a getVal
failure into the multierr instead of a series id. -/
def scanStep (db : KVStore) (p : Path) (acc : List Nat × List Nat)
    (kv : List Nat × List Nat) : List Nat × List Nat :=
  if maskMatches p kv then
    match db.valFail kv.1 with
    | some e => (acc.1, acc.2 ++ [e])
    | none => (acc.1 ++ [bytesConvSeriesID kv.2], acc.2)
  else acc

/-- seriesDB.List: when the path is full, a single point get on the prefix
(ErrKeyNotFound means an empty result and a nil error); otherwise a scan of
the keys with the prefix, admitting keys whose masked bytes equal the
template. The second component collects the multierr of getVal failures. -/
def seriesList (db : KVStore) (p : Path) : Except Nat (List Nat × List Nat) :=
  if p.isFull then
    match db.get p.pfx with
    | .failed e => .error e
    | .found id => .ok ([bytesConvSeriesID id], [])
    | .notFound => .ok ([], [])
  else
    match db.scanFail with
    | some e => .error e
    | none =>
        let matched := db.entries.filter (fun kv => leadsWith p.pfx kv.1)
        .ok (matched.foldl (scanStep db p) ([], []))

/-- A block of a segment; `delegate` is identified by the block id. -/
structure BlockM where
  blockID : Nat
deriving DecidableEq

/-- block.delegate(): modelled as the block's id. -/
def BlockM.delegate (b : BlockM) : Nat := b.blockID

/-- A segment (the `lst` field holds its blocks). -/
structure SegmentM where
  blocks : List BlockM
deriving DecidableEq

/-- The segment list of a seriesDB, as consulted by span. -/
structure SpanDB where
  segs : List SegmentM
deriving DecidableEq

/-- seriesDB.span: ignores the time range and returns the delegates of the
blocks of s.lst[0]. The Go code indexes the first segment and panics when
the segment list is empty; the empty case is modelled as the empty result
and the theorems only use nonempty databases. -/
def SpanDB.span (db : SpanDB) (_timeRange : Int × Int) : List Nat :=
  match db.segs with
  | [] => []
  | s0 :: _ => s0.blocks.map BlockM.delegate

/-- Every block delegate held by the series database, across all segments. -/
def SpanDB.allBlocks (db : SpanDB) : List Nat :=
  (db.segs.map (fun sg => sg.blocks.map BlockM.delegate)).flatten

/-- databasev1.IndexRule_Location. -/
inductive Location where
  | unspecified
  | series
  | global
deriving DecidableEq

/-- databasev1.IndexRule: identified by its metadata id, carrying the
location. Two references to the same rule compare equal. -/
structure IndexRule where
  ruleID : Nat
  location : Location
deriving DecidableEq

/-- logical.Expr: only binary predicates (FieldRef op Literal) reach the
scan core. `binary` carries the bound tag's compound name, the op and the
literal bytes. `resolvableMisc` models a ResolvableExpr that is not a
binaryExpr, carrying the outcome of its Resolve call (`some code` for a
failure); `nonResolvable` models an Expr that is not a ResolvableExpr. -/
inductive Expr where
  | binary (tag : String) (op : Nat) (value : List Nat)
  | resolvableMisc (tagId : Nat) (resolveOutcome : Option Nat)
  | nonResolvable (tagId : Nat)
deriving DecidableEq

/-- Association-list lookup of the index rule bound to a tag. -/
def slookup : List (String × IndexRule) → String → Option IndexRule
  | [], _ => none
  | kv :: rest, t => if kv.1 = t then some kv.2 else slookup rest t

/-- Modelled from the spec: the Schema consumed by the analyzer, an external
collaborator reduced to its consumed contract. `tags` lists the tag names a
FieldRef can bind against (binaryExpr.Resolve succeeds on them);
`indexRules` maps a tag name to the index rule IndexDefined returns for it. -/
structure Schema where
  tags : List String
  indexRules : List (String × IndexRule)
deriving DecidableEq

/-- Analysis-time errors of the planner. -/
inductive AErr where
  | indexNotDefined (tag : String)
  | multipleGlobalIndexes
  | fieldNotDefined (tag : String)
  | miscResolveErr (code : Nat)
  | createRefErr (tag : String)
  | orderByTagAbsent (tag : String)
deriving DecidableEq

/-- State of the classification loop of Analyze: the local condition map
(Go: map keyed by the rule handle, modelled as an association list in
insertion order) and the global (rule, expr) pairs (Go keeps them as a flat
interleaved slice; a pair here is one appended `indexObj, cond` couple). -/
abbrev CondState := List (IndexRule × List Expr) × List (IndexRule × Expr)

/-- Appending a condition under a rule in the local condition map, as the
map update of Analyze does. -/
def mapAppend (m : List (IndexRule × List Expr)) (r : IndexRule) (c : Expr) :
    List (IndexRule × List Expr) :=
  match m with
  | [] => [(r, [c])]
  | kv :: rest => if kv.1 = r then (kv.1, kv.2 ++ [c]) :: rest else kv :: mapAppend rest r c

/-- One iteration of the condition loop of unresolvedIndexScan.Analyze:
skip non-resolvable expressions, propagate Resolve failures, then classify
a binary predicate by the location of the rule IndexDefined returns,
failing with IndexNotDefined when no rule is defined for the tag. -/
def classifyStep (s : Schema) (st : CondState) (c : Expr) : Except AErr CondState :=
  match c with
  | .nonResolvable _ => .ok st
  | .resolvableMisc _ outcome =>
      match outcome with
      | some e => .error (.miscResolveErr e)
      | none => .ok st
  | .binary t op v =>
      if s.tags.contains t then
        match slookup s.indexRules t with
        | some rule =>
            if rule.location = .series then .ok (mapAppend st.1 rule (.binary t op v), st.2)
            else if rule.location = .global then .ok (st.1, st.2 ++ [(rule, .binary t op v)])
            else .ok st
        | none => .error (.indexNotDefined t)
      else .error (.fieldNotDefined t)

/-- The condition loop of Analyze. -/
def classifyAux (s : Schema) : CondState → List Expr → Except AErr CondState
  | st, [] => .ok st
  | st, c :: rest =>
      match classifyStep s st c with
      | .error e => .error e
      | .ok st2 => classifyAux s st2 rest

/-- Modelled from the spec: Schema.CreateRef binds each projected tag name,
failing on the first name the schema does not know. -/
def Schema.createRef (s : Schema) (projs : List (List String)) :
    Except AErr (List (List String)) :=
  match projs.flatten.find? (fun t => !(s.tags.contains t)) with
  | some t => .error (.createRefErr t)
  | none => .ok projs

/-- Modelled from the spec: Schema.Proj restricts the schema to the
projected view (the full schema when nothing is projected). -/
def Schema.proj (s : Schema) (refs : List (List String)) : Schema :=
  if refs.isEmpty then s
  else { s with tags := s.tags.filter (fun t => refs.flatten.contains t) }

/-- modelv1 sort direction. -/
inductive SortDir where
  | unspecifiedDir
  | asc
  | desc
deriving DecidableEq

/-- Modelled from the spec: an UnresolvedOrderBy carries the optional target
tag and the direction (logical.UnresolvedOrderBy is outside the given
sources). -/
structure UnresolvedOrderBy where
  targetTag : Option String
  dir : SortDir
deriving DecidableEq

/-- The analyzed orderBy sub-plan. -/
structure OrderBy where
  index : Option String
  dir : SortDir
deriving DecidableEq

/-- Modelled from the spec: resolve the orderBy against the projected schema
view; a nil receiver yields no ordering, an order by time needs no
resolution, and an order by an index tag fails when the view lacks the tag. -/
def analyzeOrderBy (u : Option UnresolvedOrderBy) (s : Schema) :
    Except AErr (Option OrderBy) :=
  match u with
  | none => .ok none
  | some ub =>
      match ub.targetTag with
      | none => .ok (some ⟨none, ub.dir⟩)
      | some t =>
          if s.tags.contains t then .ok (some ⟨some t, ub.dir⟩)
          else .error (.orderByTagAbsent t)

/-- logical.localIndexScan, the analyzed local plan. Times are kept in
nanoseconds as tsdb.TimeRange holds them. -/
structure LocalIndexScan where
  orderBy : Option OrderBy
  startTime : Int
  endTime : Int
  schema : Schema
  metadataGroup : String
  metadataName : String
  conditionMap : List (IndexRule × List Expr)
  projectionFieldRefs : List (List String)
  entity : Entity
deriving DecidableEq

/-- logical.globalIndexScan, the analyzed global plan. -/
structure GlobalIndexScan where
  schema : Schema
  projectionFieldRefs : List (List String)
  metadataGroup : String
  metadataName : String
  globalIndexRule : IndexRule
  expr : Expr
deriving DecidableEq

/-- logical.Plan: the analyzed plan variants of the scan core. -/
inductive Plan where
  | localIndexScan (p : LocalIndexScan)
  | globalIndexScan (g : GlobalIndexScan)
deriving DecidableEq

/-- logical.unresolvedIndexScan. -/
structure UnresolvedIndexScan where
  unresolvedOrderBy : Option UnresolvedOrderBy
  startTime : Int
  endTime : Int
  metadataGroup : String
  metadataName : String
  conditions : List Expr
  projectionFields : List (List String)
  entity : Entity

/-- unresolvedIndexScan.Analyze: classify the conditions, resolve the
projection, then route: more than one global (rule, expr) pair is
ErrMultipleGlobalIndexes, exactly one yields the global plan bound to it,
none yields the local plan with the condition map, the analyzed orderBy and
the entity. -/
def UnresolvedIndexScan.analyze (uis : UnresolvedIndexScan) (s : Schema) :
    Except AErr Plan :=
  match classifyAux s ([], []) uis.conditions with
  | .error e => .error e
  | .ok st =>
      match (if uis.projectionFields.isEmpty then Except.ok []
             else s.createRef uis.projectionFields) with
      | .error e => .error e
      | .ok projRefs =>
          match st.2 with
          | [] =>
              match analyzeOrderBy uis.unresolvedOrderBy (s.proj projRefs) with
              | .error e => .error e
              | .ok ob =>
                  .ok (.localIndexScan
                    ⟨ob, uis.startTime, uis.endTime, s, uis.metadataGroup,
                     uis.metadataName, st.1, projRefs, uis.entity⟩)
          | [(rule, e)] =>
              .ok (.globalIndexScan
                ⟨s, projRefs, uis.metadataGroup, uis.metadataName, rule, e⟩)
          | _ :: _ :: _ => .error .multipleGlobalIndexes

/-- Lookup in the local condition map by rule identity. -/
def mlookup : List (IndexRule × List Expr) → IndexRule → Option (List Expr)
  | [], _ => none
  | kv :: rest, r => if kv.1 = r then some kv.2 else mlookup rest r

/-- cmp.Equal on the condition maps: unordered key-wise agreement of the
bindings (Go maps carry no order). -/
def condMapEqual (a b : List (IndexRule × List Expr)) : Bool :=
  a.all (fun kv => decide (mlookup b kv.1 = some kv.2)) &&
    b.all (fun kv => decide (mlookup a kv.1 = some kv.2))

/-- localIndexScan.Equal: false for any other plan variant, else the
field-wise comparison in the order of the source (group, name, the
time-range endpoints in nanoseconds, the marshalled entity bytes, the
projection refs, the schema, the condition map, the orderBy). -/
def LocalIndexScan.equal (i : LocalIndexScan) (plan : Plan) : Bool :=
  match plan with
  | .globalIndexScan _ => false
  | .localIndexScan o =>
      i.metadataGroup == o.metadataGroup &&
      i.metadataName == o.metadataName &&
      i.startTime == o.startTime &&
      i.endTime == o.endTime &&
      entityMarshal i.entity == entityMarshal o.entity &&
      i.projectionFieldRefs == o.projectionFieldRefs &&
      i.schema == o.schema &&
      condMapEqual i.conditionMap o.conditionMap &&
      i.orderBy == o.orderBy

/-- Modelled from the spec: the stable textual form of an expression
(binaryExpr.String is outside the given sources). -/
def Expr.str : Expr → String
  | .binary t op v => t ++ " op" ++ toString op ++ " " ++ toString v
  | .resolvableMisc i _ => "expr" ++ toString i
  | .nonResolvable i => "expr" ++ toString i

/-- Modelled from the spec: formatExpr joins the projected refs with the
given separator. -/
def formatProjRefs (refs : List (List String)) : String :=
  String.intercalate ", " (refs.map (fun fam => String.intercalate " " fam))

/-- time.Time.Unix: the nanosecond instant in whole seconds (floor). -/
def unixSec (nanos : Int) : Int := Int.fdiv nanos 1000000000

/-- localIndexScan.String, with the enumeration of the condition map made
explicit: the Go code ranges over a map, whose iteration order the runtime
leaves unspecified, so the string is a function of the plan and of the
order in which the map entries are enumerated. The field order is fixed:
start, end, group, name, conditions joined by AND, projection joined by
commas. -/
def LocalIndexScan.stringWith (i : LocalIndexScan)
    (enum : List (IndexRule × List Expr)) : String :=
  let exprStr := enum.map
    (fun kv => "(" ++ String.intercalate " AND " (kv.2.map Expr.str) ++ ")")
  let conds := String.intercalate " AND " exprStr
  let base := "IndexScan: startTime=" ++ toString (unixSec i.startTime) ++
    ",endTime=" ++ toString (unixSec i.endTime) ++
    ",Metadata\x7bgroup=" ++ i.metadataGroup ++
    ",name=" ++ i.metadataName ++ "\x7d,conditions=" ++ conds ++
    "; projection="
  if i.projectionFieldRefs.isEmpty then base ++ "None"
  else base ++ formatProjRefs i.projectionFieldRefs

/-- A condition passes the classification loop without an error: it is not
resolvable, or resolves and (for binary predicates) both binds its tag and
finds an index rule defined for it. -/
def passes (s : Schema) : Expr → Bool
  | .binary t _ _ => s.tags.contains t && (slookup s.indexRules t).isSome
  | .resolvableMisc _ outcome => outcome.isNone
  | .nonResolvable _ => true

/-- The error the classification loop raises on a condition that does not
pass. -/
def errOf (s : Schema) : Expr → AErr
  | .binary t _ _ =>
      if s.tags.contains t then .indexNotDefined t else .fieldNotDefined t
  | .resolvableMisc _ outcome => .miscResolveErr (outcome.getD 0)
  | .nonResolvable _ => .miscResolveErr 0

/-- The condition-map fold of the classification loop, in isolation: insert
each binary predicate whose rule is series-located, skip everything else. -/
def classifyMap (s : Schema) : List (IndexRule × List Expr) → List Expr →
    List (IndexRule × List Expr)
  | m, [] => m
  | m, c :: rest =>
      match c with
      | .binary t op v =>
          (match slookup s.indexRules t with
           | some r =>
               (match r.location with
                | .series => classifyMap s (mapAppend m r (.binary t op v)) rest
                | .global => classifyMap s m rest
                | .unspecified => classifyMap s m rest)
           | none => classifyMap s m rest)
      | .resolvableMisc _ _ => classifyMap s m rest
      | .nonResolvable _ => classifyMap s m rest

/-- A condition is a binary predicate classified to the series-local rule
`r` by the schema. -/
def classifiesLocalTo (s : Schema) (r : IndexRule) : Expr → Bool
  | .binary t _ _ =>
      decide (slookup s.indexRules t = some r) && decide (r.location = .series)
  | _ => false

/-- The global (rule, expr) pairs the classification loop collects, in
condition order. -/
def globalPairs (s : Schema) (conds : List Expr) : List (IndexRule × Expr) :=
  conds.filterMap (fun c =>
    match c with
    | .binary t op v =>
        (match slookup s.indexRules t with
         | some r =>
             if r.location = .global then some (r, .binary t op v) else none
         | none => none)
    | _ => none)

/-- Merge of a pre-existing binding with the further conditions grouped
under the same rule. -/
def mergeSpec (o : Option (List Expr)) (l : List Expr) : Option (List Expr) :=
  match o with
  | some v => some (v ++ l)
  | none => if l = [] then none else some l

end Banyan

deriving instance DecidableEq for Except

namespace Banyan

/-! Concrete instances used by the counterexamples and the witnesses. -/

/-- A constant eight-byte hash used by witnesses. -/
def hashW : List Nat → List Nat := fun _ => [1, 2, 3, 4, 5, 6, 7, 8]

/-- A hash whose output repeats the first input byte, used where distinct
entries must hash apart. -/
def hashHead : List Nat → List Nat := fun b => List.replicate 8 (b.headD 0)

/-- A length-based hash for the series-directory counterexample. -/
def hashLen : List Nat → List Nat := fun b => List.replicate 8 (b.length + 1)

/-- A metadata store with no contents and no injected failures. -/
def dbEmptyKV : KVStore := ⟨[], fun _ => none, fun _ => none, fun _ => none, none⟩

/-- A store holding one series under the key hashW hashes every entity to. -/
def dbFoundW : KVStore :=
  ⟨[([1, 2, 3, 4, 5, 6, 7, 8], [0, 0, 0, 0, 0, 0, 0, 5])],
   fun _ => none, fun _ => none, fun _ => none, none⟩

/-- A store whose point get fails with code 42 on the witness key. -/
def dbFailW : KVStore :=
  ⟨[], fun k => if k = [1, 2, 3, 4, 5, 6, 7, 8] then some 42 else none,
   fun _ => none, fun _ => none, none⟩

/-- A store for the scan path of the list witness: one key matching the
path of entity [3, ANY] and one key outside its prefix. -/
def dbScanW : KVStore :=
  ⟨[([3, 3, 3, 3, 3, 3, 3, 3, 5, 5, 5, 5, 5, 5, 5, 5], [1, 0, 0, 0, 0, 0, 0, 0]),
    ([4, 4, 4, 4, 4, 4, 4, 4, 6, 6, 6, 6, 6, 6, 6, 6], [2, 0, 0, 0, 0, 0, 0, 0])],
   fun _ => none, fun _ => none, fun _ => none, none⟩

/-- The full path of the single-entry entity [[1]] under hashW. -/
def pFullW : Path := NewPath hashW [some [1]]

/-- The partial path of the entity [[3], ANY] under hashHead. -/
def pScanW : Path := NewPath hashHead [some [3], none]

/-- A GLOBAL-located index rule. -/
def gRuleW : IndexRule := ⟨1, .global⟩

/-- A second, distinct GLOBAL-located index rule. -/
def gRuleW2 : IndexRule := ⟨9, .global⟩

/-- A SERIES-LOCAL index rule. -/
def rSeriesA : IndexRule := ⟨2, .series⟩

/-- A second SERIES-LOCAL index rule. -/
def rSeriesB : IndexRule := ⟨3, .series⟩

/-- An index rule with the unspecified location. -/
def rUnspec : IndexRule := ⟨4, .unspecified⟩

/-- Schema for the C1 counterexample: two tags covered by one single GLOBAL
rule. -/
def sC1 : Schema := ⟨["a", "b"], [("a", gRuleW), ("b", gRuleW)]⟩

/-- Unresolved plan with two predicates that both target the single GLOBAL
rule of sC1. -/
def uisC1 : UnresolvedIndexScan :=
  ⟨none, 0, 0, "g", "n", [.binary "a" 0 [1], .binary "b" 0 [2]], [], []⟩

/-- Schema with two tags on one SERIES-LOCAL rule, a tag on a second local
rule, a tag with no index rule, a GLOBAL tag and an unspecified-location
tag. -/
def sW : Schema :=
  ⟨["a", "b", "c", "x", "gt", "u"],
   [("a", rSeriesA), ("b", rSeriesA), ("c", rSeriesB), ("gt", gRuleW), ("u", rUnspec)]⟩

/-- Unresolved plan with two local predicates on one rule (witness for the
condition-map grouping). -/
def uisC2 : UnresolvedIndexScan :=
  ⟨none, 0, 0, "g", "n", [.binary "a" 0 [1], .binary "b" 0 [2]], [], [some [1]]⟩

/-- Unresolved plan whose second condition has a tag without an index rule. -/
def uisC3 : UnresolvedIndexScan :=
  ⟨none, 0, 0, "g", "n", [.binary "a" 0 [1], .binary "x" 0 [2]], [], []⟩

/-- Unresolved plan with a single GLOBAL predicate (and a local one). -/
def uisC7 : UnresolvedIndexScan :=
  ⟨none, 0, 0, "g", "n", [.binary "a" 0 [1], .binary "gt" 0 [2]], [], [some [1]]⟩

/-- Unresolved plan with a predicate on the unspecified-location rule. -/
def uisC10 : UnresolvedIndexScan :=
  ⟨none, 0, 0, "g", "n", [.binary "u" 5 [9], .binary "a" 0 [1]], [], []⟩

/-- The only entity of the series-directory counterexample. -/
def entityC5 : Entity := [some [7]]

/-- The local plan Analyze produces for uisC2 against sW. -/
def lpC2 : LocalIndexScan :=
  ⟨none, 0, 0, sW, "g", "n",
   [(rSeriesA, [.binary "a" 0 [1], .binary "b" 0 [2]])], [], [some [1]]⟩

/-- The local plan Analyze produces for uisC10 against sW: the predicate on
the unspecified-location rule does not appear. -/
def lpC10 : LocalIndexScan :=
  ⟨none, 0, 0, sW, "g", "n", [(rSeriesA, [.binary "a" 0 [1]])], [], []⟩

/-- A local plan whose condition map holds two entries, for the plan
identity counterexample. -/
def pC8 : LocalIndexScan :=
  ⟨none, 0, 0, ⟨[], []⟩, "g", "n",
   [(rSeriesA, [.binary "a" 0 [1]]), (rSeriesB, [.binary "c" 0 [2]])], [], []⟩

/-- The other admissible enumeration order of the condition map of pC8. -/
def enumC8 : List (IndexRule × List Expr) :=
  [(rSeriesB, [.binary "c" 0 [2]]), (rSeriesA, [.binary "a" 0 [1]])]

/-- A series database with two segments of one block each. -/
def dbC9 : SpanDB := ⟨[⟨[⟨1⟩]⟩, ⟨[⟨2⟩]⟩]⟩

/-- A series database with a single segment. -/
def dbC9single : SpanDB := ⟨[⟨[⟨7⟩]⟩]⟩

end Banyan

namespace Banyan

/-! Lemmas about path construction. -/

lemma newPathAux_mask (hash : List Nat → List Nat) :
    ∀ (es : List Entry) (acc : PathAcc),
      (newPathAux hash acc es).mask = acc.mask ++ (es.map maskChunk).flatten := by
  intro es
  induction es with
  | nil => intro acc; simp [newPathAux]
  | cons e rest ih =>
      intro acc
      cases e <;> simp [newPathAux, newPathStep, ih, maskChunk]

lemma newPathAux_template (hash : List Nat → List Nat) :
    ∀ (es : List Entry) (acc : PathAcc),
      (newPathAux hash acc es).template =
        acc.template ++ (es.map (templChunk hash)).flatten := by
  intro es
  induction es with
  | nil => intro acc; simp [newPathAux]
  | cons e rest ih =>
      intro acc
      cases e <;> simp [newPathAux, newPathStep, ih, templChunk]

lemma newPathAux_any (hash : List Nat → List Nat) :
    ∀ (es : List Entry) (acc : PathAcc),
      (newPathAux hash acc es).encounterAny =
        (acc.encounterAny || es.any (fun e => e.isNone)) := by
  intro es
  induction es with
  | nil => intro acc; simp [newPathAux]
  | cons e rest ih =>
      intro acc
      cases e <;> simp [newPathAux, newPathStep, ih]

lemma newPathAux_offset (hash : List Nat → List Nat) :
    ∀ (es : List Entry) (acc : PathAcc),
      (newPathAux hash acc es).offset =
        (if acc.encounterAny then acc.offset
         else acc.offset + 8 * (es.takeWhile (fun e => e.isSome)).length) := by
  intro es
  induction es with
  | nil => intro acc; simp [newPathAux]
  | cons e rest ih =>
      intro acc
      cases e with
      | none =>
          rw [newPathAux, ih]
          simp [newPathStep, List.takeWhile_cons]
      | some b =>
          rw [newPathAux, ih]
          cases h : acc.encounterAny
          · simp [newPathStep, h, List.takeWhile_cons, Nat.mul_succ]
            omega
          · simp [newPathStep, h, List.takeWhile_cons]

lemma templChunk_length (hash : List Nat → List Nat) (hlen : ∀ b, (hash b).length = 8) :
    ∀ e : Entry, (templChunk hash e).length = 8 := by
  intro e; cases e <;> simp [templChunk, zeroIntBytes, hlen]

lemma maskChunk_length : ∀ e : Entry, (maskChunk e).length = 8 := by
  intro e; cases e <;> simp [maskChunk, zeroIntBytes, maxIntBytes]

lemma flatten_chunks_length (f : Entry → List Nat) (hf : ∀ e, (f e).length = 8) :
    ∀ es : List Entry, ((es.map f).flatten).length = 8 * es.length := by
  intro es
  induction es with
  | nil => simp
  | cons e rest ih => simp [ih, hf]; omega

lemma take_flatten_chunks (f : Entry → List Nat) (hf : ∀ e, (f e).length = 8) :
    ∀ (l : List Entry) (k : Nat),
      ((l.map f).flatten).take (8 * k) = ((l.take k).map f).flatten := by
  intro l
  induction l with
  | nil => intro k; simp
  | cons e rest ih =>
      intro k
      cases k with
      | zero => simp
      | succ k =>
          have h8 : 8 * (k + 1) = (f e).length + 8 * k := by rw [hf]; omega
          simp only [List.map_cons, List.flatten_cons, List.take_succ_cons, h8,
            List.take_append_eq_append_take]
          have hle : (f e).length ≤ (f e).length + 8 * k := by omega
          rw [List.take_of_length_le hle]
          simp [ih]

lemma take_length_takeWhile (p : Entry → Bool) :
    ∀ l : List Entry, l.take (l.takeWhile p).length = l.takeWhile p := by
  intro l
  induction l with
  | nil => simp
  | cons a rest ih =>
      cases h : p a <;> simp [List.takeWhile_cons, h, ih]

/-- C4: for every entity, NewPath builds template and mask of length 8·n,
a concrete entry contributing its hash to the template and eight 0xFF bytes
to the mask, an ANY entry contributing eight zero bytes to both; the prefix
is the template of the longest leading concrete run (stopping at the first
ANY); isFull holds iff no entry is ANY. -/
theorem C4_newPath (hash : List Nat → List Nat) (hlen : ∀ b, (hash b).length = 8)
    (es : List Entry) :
    (NewPath hash es).template = (es.map (templChunk hash)).flatten
    ∧ (NewPath hash es).mask = (es.map maskChunk).flatten
    ∧ (NewPath hash es).template.length = 8 * es.length
    ∧ (NewPath hash es).mask.length = 8 * es.length
    ∧ (NewPath hash es).pfx =
      ((es.takeWhile (fun e => e.isSome)).map (fun e => hash (e.getD []))).flatten
    ∧ ((NewPath hash es).isFull = true ↔ ∀ e ∈ es, e ≠ none) := by
  have ht := newPathAux_template hash es ⟨[], [], 0, false⟩
  have hm := newPathAux_mask hash es ⟨[], [], 0, false⟩
  have ha := newPathAux_any hash es ⟨[], [], 0, false⟩
  have ho := newPathAux_offset hash es ⟨[], [], 0, false⟩
  have h1 : (NewPath hash es).template = (es.map (templChunk hash)).flatten := by
    simpa [NewPath] using ht
  have h2 : (NewPath hash es).mask = (es.map maskChunk).flatten := by
    simpa [NewPath] using hm
  refine ⟨h1, h2, ?_, ?_, ?_, ?_⟩
  · rw [h1]; exact flatten_chunks_length _ (templChunk_length hash hlen) es
  · rw [h2]; exact flatten_chunks_length _ maskChunk_length es
  · have hpfx : (NewPath hash es).pfx =
        ((es.map (templChunk hash)).flatten).take
          (8 * (es.takeWhile (fun e => e.isSome)).length) := by
      simp [NewPath, ht, ho]
    rw [hpfx, take_flatten_chunks _ (templChunk_length hash hlen), take_length_takeWhile]
    have hcongr : ∀ e ∈ es.takeWhile (fun e : Entry => e.isSome),
        templChunk hash e = hash (e.getD []) := by
      intro e he
      have hs := List.mem_takeWhile_imp he
      cases e with
      | none => simp at hs
      | some b => simp [templChunk]
    rw [List.map_congr_left hcongr]
  · simp only [NewPath, ha]
    simp [List.any_eq_true, Option.isNone_iff_eq_none]

/-- Witness for C4 at the constant eight-byte hash and the entity
[[1], ANY, [2]]. -/
theorem C4_newPath_witness :
    (∀ b, (hashW b).length = 8) ∧
    ((NewPath hashW [some [1], none, some [2]]).template =
      ([some [1], none, some [2]].map (templChunk hashW)).flatten
    ∧ (NewPath hashW [some [1], none, some [2]]).mask =
      ([some [1], none, some [2]].map maskChunk).flatten
    ∧ (NewPath hashW [some [1], none, some [2]]).template.length = 8 * 3
    ∧ (NewPath hashW [some [1], none, some [2]]).mask.length = 8 * 3
    ∧ (NewPath hashW [some [1], none, some [2]]).pfx =
      (([some [1], none, some [2]].takeWhile (fun e => e.isSome)).map
        (fun e => hashW (e.getD []))).flatten
    ∧ ((NewPath hashW [some [1], none, some [2]]).isFull = true ↔
        ∀ e ∈ [some [1], none, some [2]], e ≠ none)) :=
  ⟨fun _ => rfl,
   by simpa using C4_newPath hashW (fun _ => rfl) [some [1], none, some [2]]⟩

end Banyan

namespace Banyan

/-! Lemmas and theorems about the series directory. -/

lemma klookup_kput (l : List (List Nat × List Nat)) (k v : List Nat) :
    klookup (kput l k v) k = some v := by
  induction l with
  | nil => simp [kput, klookup]
  | cons kv rest ih =>
      by_cases h : kv.1 = k
      · simp [kput, h, klookup]
      · simp [kput, h, klookup, ih]

/-- C5 counterexample: on an empty store, get for the entity [[7]] under
the length hash leaves the store mapping key to hash(key), and the mapping
hash(key) to key the claim describes is absent. -/
theorem C5_counterexample :
    (seriesGet hashLen dbEmptyKV entityC5).toOption.map (fun r => r.2.entries) =
      some [([2, 2, 2, 2, 2, 2, 2, 2], [9, 9, 9, 9, 9, 9, 9, 9])]
    ∧ klookup [([2, 2, 2, 2, 2, 2, 2, 2], [9, 9, 9, 9, 9, 9, 9, 9])]
        (hashLen [2, 2, 2, 2, 2, 2, 2, 2]) = none := by
  constructor
  · rfl
  · rfl

/-- C5 (amended): get computes the entity key as the concatenation of the
per-entry hashes, looks that key up in the series-metadata KV, and when the
key is absent writes the mapping key to hash(key) (not hash(key) to key)
and returns the new series whose id is derived from hash(key). -/
theorem C5_get_amended (hash : List Nat → List Nat) (db : KVStore) (entity : Entity)
    (habs : klookup db.entries (HashEntity hash entity) = none)
    (hgf : db.getFail (HashEntity hash entity) = none)
    (hpf : db.putFail (HashEntity hash entity) = none) :
    seriesGet hash db entity =
      .ok (bytesConvSeriesID (hash (HashEntity hash entity)),
        { db with
            entries := kput db.entries (HashEntity hash entity)
              (hash (HashEntity hash entity)) })
    ∧ klookup
        (kput db.entries (HashEntity hash entity) (hash (HashEntity hash entity)))
        (HashEntity hash entity) = some (hash (HashEntity hash entity)) := by
  constructor
  · simp [seriesGet, GetByHashKey, KVStore.get, KVStore.put, hgf, habs, hpf]
  · exact klookup_kput _ _ _

/-- Witness for the amended C5 at the length hash, the empty store and the
entity [[7]]. -/
theorem C5_get_amended_witness :
    (klookup dbEmptyKV.entries (HashEntity hashLen entityC5) = none
      ∧ dbEmptyKV.getFail (HashEntity hashLen entityC5) = none
      ∧ dbEmptyKV.putFail (HashEntity hashLen entityC5) = none)
    ∧ (seriesGet hashLen dbEmptyKV entityC5 =
        .ok (bytesConvSeriesID (hashLen (HashEntity hashLen entityC5)),
          { dbEmptyKV with
              entries := kput dbEmptyKV.entries (HashEntity hashLen entityC5)
                (hashLen (HashEntity hashLen entityC5)) })
      ∧ klookup
          (kput dbEmptyKV.entries (HashEntity hashLen entityC5)
            (hashLen (HashEntity hashLen entityC5)))
          (HashEntity hashLen entityC5) =
            some (hashLen (HashEntity hashLen entityC5))) :=
  ⟨⟨rfl, rfl, rfl⟩, C5_get_amended hashLen dbEmptyKV entityC5 rfl rfl rfl⟩

lemma scanFold (db : KVStore) (p : Path) :
    ∀ (l : List (List Nat × List Nat)) (a b : List Nat),
      (∀ kv ∈ l, db.valFail kv.1 = none) →
      l.foldl (scanStep db p) (a, b) =
        (a ++ (l.filter (maskMatches p)).map (fun kv => bytesConvSeriesID kv.2), b) := by
  intro l
  induction l with
  | nil => intro a b _; simp
  | cons kv rest ih =>
      intro a b hval
      have hkv : db.valFail kv.1 = none := hval kv (by simp)
      have hrest : ∀ kv2 ∈ rest, db.valFail kv2.1 = none := by
        intro kv2 h2; exact hval kv2 (by simp [h2])
      by_cases hm : maskMatches p kv
      · rw [List.foldl_cons]
        rw [show scanStep db p (a, b) kv = (a ++ [bytesConvSeriesID kv.2], b) by
          simp [scanStep, hm, hkv]]
        rw [ih _ _ hrest]
        simp [hm]
      · rw [List.foldl_cons]
        rw [show scanStep db p (a, b) kv = (a, b) by simp [scanStep, hm]]
        rw [ih _ _ hrest]
        simp [hm]

/-- C6: when the path is full, List performs the single point get on the
prefix; KV not-found yields the empty series list with a nil error, a
found value yields that single series, and any other get failure is
returned. When the path is not full, List scans the keys carrying the
prefix and returns exactly the scanned series whose key satisfies
(key AND mask) = template, with a nil error, provided the store injects no
failures and the scanned keys do not outrun the mask (the Go code would
panic there). -/
theorem C6_list (db : KVStore) (p : Path) :
    (p.isFull = true → db.get p.pfx = .notFound → seriesList db p = .ok ([], []))
    ∧ (∀ e, p.isFull = true → db.get p.pfx = .failed e → seriesList db p = .error e)
    ∧ (∀ v, p.isFull = true → db.get p.pfx = .found v →
        seriesList db p = .ok ([bytesConvSeriesID v], []))
    ∧ (p.isFull = false → db.scanFail = none →
        (∀ kv ∈ db.entries, db.valFail kv.1 = none) →
        (∀ kv ∈ db.entries, kv.1.length ≤ p.mask.length) →
        seriesList db p =
          .ok ((((db.entries.filter (fun kv => leadsWith p.pfx kv.1)).filter
              (maskMatches p)).map (fun kv => bytesConvSeriesID kv.2)), [])) := by
  refine ⟨?_, ?_, ?_, ?_⟩
  · intro hfull hget; simp [seriesList, hfull, hget]
  · intro e hfull hget; simp [seriesList, hfull, hget]
  · intro v hfull hget; simp [seriesList, hfull, hget]
  · intro hnf hsf hval _hlen
    have hval2 : ∀ kv ∈ db.entries.filter (fun kv => leadsWith p.pfx kv.1),
        db.valFail kv.1 = none := by
      intro kv hkv
      exact hval kv (List.mem_of_mem_filter hkv)
    simp only [seriesList, hnf, hsf, Bool.false_eq_true, if_false]
    rw [scanFold db p _ [] [] hval2]
    simp

/-- Witness for C6: the three point-get outcomes on the full path of [[1]]
and the scan on the partial path of [[3], ANY]. -/
theorem C6_list_witness :
    (seriesList dbEmptyKV pFullW = .ok ([], []))
    ∧ (seriesList dbFailW pFullW = .error 42)
    ∧ (seriesList dbFoundW pFullW = .ok ([bytesConvSeriesID [0, 0, 0, 0, 0, 0, 0, 5]], []))
    ∧ (seriesList dbScanW pScanW =
        .ok ((((dbScanW.entries.filter (fun kv => leadsWith pScanW.pfx kv.1)).filter
            (maskMatches pScanW)).map (fun kv => bytesConvSeriesID kv.2)), [])) :=
  ⟨(C6_list dbEmptyKV pFullW).1 (by decide) (by decide),
   (C6_list dbFailW pFullW).2.1 42 (by decide) (by decide),
   (C6_list dbFoundW pFullW).2.2.1 [0, 0, 0, 0, 0, 0, 0, 5] (by decide) (by decide),
   (C6_list dbScanW pScanW).2.2.2 (by decide) (by decide) (by decide) (by decide)⟩

/-- C9 counterexample: with two segments of one block each, span returns
only the first segment's block, so the returned delegates do not cover
every block held by the series database. -/
theorem C9_counterexample :
    dbC9.span (0, 10) = [1]
    ∧ dbC9.allBlocks = [1, 2]
    ∧ 2 ∈ dbC9.allBlocks
    ∧ 2 ∉ dbC9.span (0, 10) := by
  refine ⟨rfl, rfl, by decide, by decide⟩

/-- C9 (amended): span ignores the requested time range (the result is
independent of it), returns only delegates of blocks the database holds,
and covers every block exactly when the database holds a single segment. -/
theorem C9_span_amended (db : SpanDB) (tr tr2 : Int × Int) :
    db.span tr = db.span tr2
    ∧ (∀ x ∈ db.span tr, x ∈ db.allBlocks)
    ∧ (∀ sg, db.segs = [sg] → db.span tr = db.allBlocks) := by
  refine ⟨rfl, ?_, ?_⟩
  · intro x hx
    cases hseg : db.segs with
    | nil => simp [SpanDB.span, hseg] at hx
    | cons s0 rest =>
        simp [SpanDB.span, hseg] at hx
        simp [SpanDB.allBlocks, hseg]
        exact Or.inl hx
  · intro sg hseg
    simp [SpanDB.span, SpanDB.allBlocks, hseg]

/-- Witness for the amended C9 at the two concrete databases. -/
theorem C9_span_amended_witness :
    (dbC9.span (0, 0) = dbC9.span (5, 5))
    ∧ (1 ∈ dbC9.span (0, 0) ∧ 1 ∈ dbC9.allBlocks)
    ∧ (dbC9single.segs = [⟨[⟨7⟩]⟩] ∧ dbC9single.span (0, 0) = dbC9single.allBlocks) :=
  ⟨(C9_span_amended dbC9 (0, 0) (5, 5)).1,
   ⟨by decide, (C9_span_amended dbC9 (0, 0) (5, 5)).2.1 1 (by decide)⟩,
   ⟨rfl, (C9_span_amended dbC9single (0, 0) (5, 5)).2.2 ⟨[⟨7⟩]⟩ rfl⟩⟩

end Banyan

namespace Banyan

/-! Lemmas about the classification loop of Analyze. -/

lemma passes_binary_iff (s : Schema) (t : String) (op : Nat) (v : List Nat) :
    passes s (.binary t op v) = true ↔
      (t ∈ s.tags ∧ ∃ r, slookup s.indexRules t = some r) := by
  simp [passes, Option.isSome_iff_exists]

lemma classifyStep_ok (s : Schema) (c : Expr) (h : passes s c = true) (st : CondState) :
    ∃ st2, classifyStep s st c = .ok st2 := by
  cases c with
  | nonResolvable i => exact ⟨st, rfl⟩
  | resolvableMisc i outcome =>
      cases outcome with
      | some e => simp [passes] at h
      | none => exact ⟨st, rfl⟩
  | binary t op v =>
      obtain ⟨hct, r, hr⟩ := (passes_binary_iff s t op v).mp h
      cases hl : r.location with
      | unspecified => exact ⟨st, by simp [classifyStep, hct, hr, hl]⟩
      | series =>
          exact ⟨(mapAppend st.1 r (.binary t op v), st.2),
            by simp [classifyStep, hct, hr, hl]⟩
      | global =>
          exact ⟨(st.1, st.2 ++ [(r, .binary t op v)]),
            by simp [classifyStep, hct, hr, hl]⟩

lemma classifyAux_ok (s : Schema) :
    ∀ (conds : List Expr) (st : CondState),
      (∀ c ∈ conds, passes s c = true) →
      classifyAux s st conds =
        .ok (classifyMap s st.1 conds, st.2 ++ globalPairs s conds) := by
  intro conds
  induction conds with
  | nil => intro st _; simp [classifyAux, classifyMap, globalPairs]
  | cons c rest ih =>
      intro st h
      have hc := h c (by simp)
      have hrest : ∀ x ∈ rest, passes s x = true := fun x hx => h x (by simp [hx])
      cases c with
      | nonResolvable i =>
          rw [classifyAux]
          simp only [classifyStep]
          rw [ih st hrest]
          simp [classifyMap, globalPairs, List.filterMap_cons]
      | resolvableMisc i outcome =>
          cases outcome with
          | some e => simp [passes] at hc
          | none =>
              rw [classifyAux]
              simp only [classifyStep]
              rw [ih st hrest]
              simp [classifyMap, globalPairs, List.filterMap_cons]
      | binary t op v =>
          obtain ⟨hct, r, hr⟩ := (passes_binary_iff s t op v).mp hc
          cases hl : r.location with
          | unspecified =>
              rw [classifyAux]
              simp only [show classifyStep s st (.binary t op v) = .ok st by
                simp [classifyStep, hct, hr, hl]]
              rw [ih st hrest]
              simp [classifyMap, globalPairs, List.filterMap_cons, hr, hl]
          | series =>
              rw [classifyAux]
              simp only [show classifyStep s st (.binary t op v) =
                  .ok (mapAppend st.1 r (.binary t op v), st.2) by
                simp [classifyStep, hct, hr, hl]]
              rw [ih _ hrest]
              simp [classifyMap, globalPairs, List.filterMap_cons, hr, hl]
          | global =>
              rw [classifyAux]
              simp only [show classifyStep s st (.binary t op v) =
                  .ok (st.1, st.2 ++ [(r, .binary t op v)]) by
                simp [classifyStep, hct, hr, hl]]
              rw [ih _ hrest]
              simp [classifyMap, globalPairs, List.filterMap_cons, hr, hl]

lemma classifyAux_passes (s : Schema) :
    ∀ (conds : List Expr) (st st2 : CondState),
      classifyAux s st conds = .ok st2 → ∀ c ∈ conds, passes s c = true := by
  intro conds
  induction conds with
  | nil => intro st st2 _ c hc; simp at hc
  | cons c0 rest ih =>
      intro st st2 hok c hc
      rw [classifyAux] at hok
      cases hstep : classifyStep s st c0 with
      | error e => rw [hstep] at hok; simp at hok
      | ok st1 =>
          rw [hstep] at hok
          rcases List.mem_cons.mp hc with h1 | h1
          · subst h1
            cases c with
            | nonResolvable i => simp [passes]
            | resolvableMisc i outcome =>
                cases outcome with
                | some e => simp [classifyStep] at hstep
                | none => simp [passes]
            | binary t op v =>
                by_cases hct : t ∈ s.tags
                · cases hr : slookup s.indexRules t with
                  | none => simp [classifyStep, hct, hr] at hstep
                  | some r =>
                      rw [passes_binary_iff]
                      exact ⟨hct, r, hr⟩
                · simp [classifyStep, hct] at hstep
          · exact ih st1 st2 hok c h1

lemma classifyAux_error_first (s : Schema) :
    ∀ (pre : List Expr) (c : Expr) (rest : List Expr) (st : CondState),
      (∀ x ∈ pre, passes s x = true) → passes s c = false →
      classifyAux s st (pre ++ c :: rest) = .error (errOf s c) := by
  intro pre
  induction pre with
  | nil =>
      intro c rest st _ hfail
      rw [List.nil_append, classifyAux]
      have hstep : classifyStep s st c = .error (errOf s c) := by
        cases c with
        | nonResolvable i => simp [passes] at hfail
        | resolvableMisc i outcome =>
            cases outcome with
            | some e => simp [classifyStep, errOf]
            | none => simp [passes] at hfail
        | binary t op v =>
            by_cases hct : t ∈ s.tags
            · cases hr : slookup s.indexRules t with
              | some r =>
                  simp [passes, hr] at hfail
                  exact absurd hct hfail
              | none => simp [classifyStep, errOf, hct, hr]
            · simp [classifyStep, errOf, hct]
      rw [hstep]
  | cons p pre2 ih =>
      intro c rest st hpre hfail
      have hp := hpre p (by simp)
      obtain ⟨st2, hst2⟩ := classifyStep_ok s p hp st
      rw [List.cons_append, classifyAux, hst2]
      exact ih c rest st2 (fun x hx => hpre x (by simp [hx])) hfail

lemma mergeSpec_nil (o : Option (List Expr)) : mergeSpec o [] = o := by
  cases o <;> simp [mergeSpec]

lemma mergeSpec_cons (o : Option (List Expr)) (c : Expr) (l : List Expr) :
    mergeSpec o (c :: l) = some (o.getD [] ++ c :: l) := by
  cases o <;> simp [mergeSpec]

lemma mlookup_mapAppend (m : List (IndexRule × List Expr)) (r : IndexRule) (c : Expr)
    (r2 : IndexRule) :
    mlookup (mapAppend m r c) r2 =
      (if r2 = r then some ((mlookup m r).getD [] ++ [c]) else mlookup m r2) := by
  induction m with
  | nil =>
      by_cases h : r2 = r
      · simp [mapAppend, mlookup, h]
      · have h4 : ¬(r = r2) := fun hh => h hh.symm
        simp [mapAppend, mlookup, h, h4]
  | cons kv rest ih =>
      by_cases h1 : kv.1 = r
      · by_cases h2 : r2 = r
        · subst h2
          simp [mapAppend, mlookup, h1]
        · have h3 : kv.1 ≠ r2 := by rw [h1]; exact fun hh => h2 hh.symm
          have h4 : ¬(r = r2) := fun hh => h2 hh.symm
          simp [mapAppend, mlookup, h1, h2, h3, h4]
      · by_cases h2 : kv.1 = r2
        · have h3 : ¬(r2 = r) := by rw [← h2]; exact fun hh => h1 hh
          simp [mapAppend, mlookup, h1, h2, h3]
        · simp [mapAppend, mlookup, h1, h2, ih]

lemma mlookup_classifyMap (s : Schema) :
    ∀ (conds : List Expr) (m : List (IndexRule × List Expr)) (r : IndexRule),
      mlookup (classifyMap s m conds) r =
        mergeSpec (mlookup m r) (conds.filter (classifiesLocalTo s r)) := by
  intro conds
  induction conds with
  | nil => intro m r; simp [classifyMap, mergeSpec_nil]
  | cons c rest ih =>
      intro m r
      cases c with
      | nonResolvable i =>
          have hcl : classifiesLocalTo s r (.nonResolvable i) = false := rfl
          rw [classifyMap, ih]
          simp [List.filter_cons, hcl]
      | resolvableMisc i outcome =>
          have hcl : classifiesLocalTo s r (.resolvableMisc i outcome) = false := rfl
          rw [classifyMap, ih]
          simp [List.filter_cons, hcl]
      | binary t op v =>
          cases hr : slookup s.indexRules t with
          | none =>
              have hcl : classifiesLocalTo s r (.binary t op v) = false := by
                simp [classifiesLocalTo, hr]
              rw [classifyMap]
              simp only [hr]
              rw [ih]
              simp [List.filter_cons, hcl]
          | some r0 =>
              cases hl : r0.location with
              | series =>
                  by_cases hrr : r = r0
                  · subst hrr
                    have hcl : classifiesLocalTo s r (.binary t op v) = true := by
                      simp [classifiesLocalTo, hr, hl]
                    rw [classifyMap]
                    simp only [hr, hl]
                    rw [ih, mlookup_mapAppend]
                    simp only [List.filter_cons, hcl, if_true, mergeSpec_cons]
                    cases hmr : mlookup m r <;> simp [mergeSpec]
                  · have hne : r0 ≠ r := fun hh => hrr hh.symm
                    have hcl : classifiesLocalTo s r (.binary t op v) = false := by
                      simp [classifiesLocalTo, hr, hne]
                    rw [classifyMap]
                    simp only [hr, hl]
                    rw [ih, mlookup_mapAppend]
                    simp [List.filter_cons, hcl, hrr]
              | global =>
                  have hcl : classifiesLocalTo s r (.binary t op v) = false := by
                    by_cases hrr : r = r0
                    · subst hrr; simp [classifiesLocalTo, hr, hl]
                    · have hne : r0 ≠ r := fun hh => hrr hh.symm
                      simp [classifiesLocalTo, hr, hne]
                  rw [classifyMap]
                  simp only [hr, hl]
                  rw [ih]
                  simp [List.filter_cons, hcl]
              | unspecified =>
                  have hcl : classifiesLocalTo s r (.binary t op v) = false := by
                    by_cases hrr : r = r0
                    · subst hrr; simp [classifiesLocalTo, hr, hl]
                    · have hne : r0 ≠ r := fun hh => hrr hh.symm
                      simp [classifiesLocalTo, hr, hne]
                  rw [classifyMap]
                  simp only [hr, hl]
                  rw [ih]
                  simp [List.filter_cons, hcl]

end Banyan

namespace Banyan

/-! Membership lemmas for the condition map and the global pairs. -/

lemma mem_mapAppend (m : List (IndexRule × List Expr)) (r : IndexRule) (c : Expr) :
    ∀ kv ∈ mapAppend m r c, kv.1 = r ∨ kv ∈ m := by
  induction m with
  | nil =>
      intro kv hkv
      simp only [mapAppend, List.mem_singleton] at hkv
      left
      rw [hkv]
  | cons kv0 rest ih =>
      intro kv hkv
      by_cases h : kv0.1 = r
      · simp [mapAppend, h] at hkv
        rcases hkv with h1 | h1
        · left; rw [h1]
        · right; simp [h1]
      · simp [mapAppend, h] at hkv
        rcases hkv with h1 | h1
        · right; simp [h1]
        · rcases ih kv h1 with h2 | h2
          · left; exact h2
          · right; simp [h2]

lemma mem_mapAppend_val (m : List (IndexRule × List Expr)) (r : IndexRule) (c : Expr) :
    ∀ kv ∈ mapAppend m r c, ∀ x ∈ kv.2,
      (∃ kv2 ∈ m, kv2.1 = kv.1 ∧ x ∈ kv2.2) ∨ (kv.1 = r ∧ x = c) := by
  induction m with
  | nil =>
      intro kv hkv x hx
      simp [mapAppend] at hkv
      rw [hkv] at hx ⊢
      simp at hx
      right; exact ⟨rfl, hx⟩
  | cons kv0 rest ih =>
      intro kv hkv x hx
      by_cases h : kv0.1 = r
      · simp [mapAppend, h] at hkv
        rcases hkv with h1 | h1
        · rw [h1] at hx
          simp at hx
          rcases hx with h2 | h2
          · left; exact ⟨kv0, by simp, by rw [h1]; exact h, h2⟩
          · right; rw [h1]; exact ⟨rfl, h2⟩
        · left; exact ⟨kv, by simp [h1], rfl, hx⟩
      · simp [mapAppend, h] at hkv
        rcases hkv with h1 | h1
        · left; exact ⟨kv0, by simp, by rw [h1], by rw [h1] at hx; exact hx⟩
        · rcases ih kv h1 x hx with ⟨kv2, h2, h3, h4⟩ | h2
          · left; exact ⟨kv2, by simp [h2], h3, h4⟩
          · right; exact h2

lemma classifyMap_keys (s : Schema) :
    ∀ (conds : List Expr) (m : List (IndexRule × List Expr)),
      (∀ kv ∈ m, kv.1.location = .series) →
      ∀ kv ∈ classifyMap s m conds, kv.1.location = .series := by
  intro conds
  induction conds with
  | nil => intro m hm; simpa [classifyMap] using hm
  | cons c rest ih =>
      intro m hm
      cases c with
      | nonResolvable i => simp only [classifyMap]; exact ih m hm
      | resolvableMisc i outcome => simp only [classifyMap]; exact ih m hm
      | binary t op v =>
          cases hr : slookup s.indexRules t with
          | none => simp only [classifyMap, hr]; exact ih m hm
          | some r0 =>
              cases hl : r0.location with
              | series =>
                  simp only [classifyMap, hr, hl]
                  apply ih
                  intro kv hkv
                  rcases mem_mapAppend m r0 (.binary t op v) kv hkv with h1 | h1
                  · rw [h1]; exact hl
                  · exact hm kv h1
              | global => simp only [classifyMap, hr, hl]; exact ih m hm
              | unspecified => simp only [classifyMap, hr, hl]; exact ih m hm

lemma classifyMap_val (s : Schema) :
    ∀ (conds : List Expr) (m : List (IndexRule × List Expr)),
      (∀ kv ∈ m, ∀ x ∈ kv.2, classifiesLocalTo s kv.1 x = true) →
      ∀ kv ∈ classifyMap s m conds, ∀ x ∈ kv.2, classifiesLocalTo s kv.1 x = true := by
  intro conds
  induction conds with
  | nil => intro m hm; simpa [classifyMap] using hm
  | cons c rest ih =>
      intro m hm
      cases c with
      | nonResolvable i => simp only [classifyMap]; exact ih m hm
      | resolvableMisc i outcome => simp only [classifyMap]; exact ih m hm
      | binary t op v =>
          cases hr : slookup s.indexRules t with
          | none => simp only [classifyMap, hr]; exact ih m hm
          | some r0 =>
              cases hl : r0.location with
              | series =>
                  simp only [classifyMap, hr, hl]
                  apply ih
                  intro kv hkv x hx
                  rcases mem_mapAppend_val m r0 (.binary t op v) kv hkv x hx with
                    ⟨kv2, h2, h3, h4⟩ | ⟨h2, h3⟩
                  · rw [← h3]; exact hm kv2 h2 x h4
                  · rw [h2, h3]; simp [classifiesLocalTo, hr, hl]
              | global => simp only [classifyMap, hr, hl]; exact ih m hm
              | unspecified => simp only [classifyMap, hr, hl]; exact ih m hm

lemma mem_globalPairs (s : Schema) (conds : List Expr) :
    ∀ x ∈ globalPairs s conds,
      ∃ t op v, x.2 = Expr.binary t op v ∧ slookup s.indexRules t = some x.1
        ∧ x.1.location = .global := by
  intro x hx
  obtain ⟨c, hc, hfc⟩ := List.mem_filterMap.mp hx
  cases c with
  | binary t op v =>
      cases hr : slookup s.indexRules t with
      | none => simp [hr] at hfc
      | some r0 =>
          by_cases hl : r0.location = .global
          · simp [hr, hl] at hfc
            refine ⟨t, op, v, ?_, ?_, ?_⟩
            · rw [← hfc]
            · rw [← hfc]; exact hr
            · rw [← hfc]; exact hl
          · simp [hr, hl] at hfc
  | resolvableMisc i outcome => simp at hfc
  | nonResolvable i => simp at hfc

/-! Extraction lemmas for the routing step of Analyze. -/

lemma analyze_route (s : Schema) (uis : UnresolvedIndexScan) (refs : List (List String))
    (hpass : ∀ c ∈ uis.conditions, passes s c = true)
    (hproj : (if uis.projectionFields.isEmpty then Except.ok []
              else s.createRef uis.projectionFields) = .ok refs) :
    uis.analyze s =
      (match globalPairs s uis.conditions with
       | [] =>
           (match analyzeOrderBy uis.unresolvedOrderBy (s.proj refs) with
            | .error e => .error e
            | .ok ob =>
                .ok (.localIndexScan
                  ⟨ob, uis.startTime, uis.endTime, s, uis.metadataGroup,
                   uis.metadataName, classifyMap s [] uis.conditions, refs, uis.entity⟩))
       | [(rule, e)] =>
           .ok (.globalIndexScan ⟨s, refs, uis.metadataGroup, uis.metadataName, rule, e⟩)
       | _ :: _ :: _ => .error .multipleGlobalIndexes) := by
  rw [UnresolvedIndexScan.analyze]
  simp only [classifyAux_ok s uis.conditions ([], []) hpass, List.nil_append, hproj]

lemma analyze_local_elim (uis : UnresolvedIndexScan) (s : Schema) (lp : LocalIndexScan)
    (hok : uis.analyze s = .ok (.localIndexScan lp)) :
    (∀ c ∈ uis.conditions, passes s c = true)
    ∧ lp.conditionMap = classifyMap s [] uis.conditions
    ∧ globalPairs s uis.conditions = [] := by
  rw [UnresolvedIndexScan.analyze] at hok
  cases h1 : classifyAux s ([], []) uis.conditions with
  | error e => simp only [h1] at hok; simp at hok
  | ok st =>
      simp only [h1] at hok
      have hpass := classifyAux_passes s uis.conditions ([], []) st h1
      have h2 := classifyAux_ok s uis.conditions ([], []) hpass
      rw [h1] at h2
      have hst : st = (classifyMap s [] uis.conditions, globalPairs s uis.conditions) := by
        simpa using h2
      subst hst
      cases h3 : (if uis.projectionFields.isEmpty then Except.ok []
                  else s.createRef uis.projectionFields) with
      | error e => simp only [h3] at hok; simp at hok
      | ok refs =>
          simp only [h3] at hok
          cases h4 : globalPairs s uis.conditions with
          | nil =>
              simp only [h4] at hok
              cases h5 : analyzeOrderBy uis.unresolvedOrderBy (s.proj refs) with
              | error e => simp only [h5] at hok; simp at hok
              | ok ob =>
                  simp only [h5] at hok
                  injection hok with h6
                  injection h6 with h7
                  exact ⟨hpass, by rw [← h7], rfl⟩
          | cons x rest =>
              cases rest with
              | nil =>
                  obtain ⟨rule, e⟩ := x
                  simp only [h4] at hok
                  simp at hok
              | cons y rest2 =>
                  simp only [h4] at hok
                  simp at hok

lemma analyze_global_elim (uis : UnresolvedIndexScan) (s : Schema) (g : GlobalIndexScan)
    (hok : uis.analyze s = .ok (.globalIndexScan g)) :
    (∀ c ∈ uis.conditions, passes s c = true)
    ∧ globalPairs s uis.conditions = [(g.globalIndexRule, g.expr)] := by
  rw [UnresolvedIndexScan.analyze] at hok
  cases h1 : classifyAux s ([], []) uis.conditions with
  | error e => simp only [h1] at hok; simp at hok
  | ok st =>
      simp only [h1] at hok
      have hpass := classifyAux_passes s uis.conditions ([], []) st h1
      have h2 := classifyAux_ok s uis.conditions ([], []) hpass
      rw [h1] at h2
      have hst : st = (classifyMap s [] uis.conditions, globalPairs s uis.conditions) := by
        simpa using h2
      subst hst
      cases h3 : (if uis.projectionFields.isEmpty then Except.ok []
                  else s.createRef uis.projectionFields) with
      | error e => simp only [h3] at hok; simp at hok
      | ok refs =>
          simp only [h3] at hok
          cases h4 : globalPairs s uis.conditions with
          | nil =>
              simp only [h4] at hok
              cases h5 : analyzeOrderBy uis.unresolvedOrderBy (s.proj refs) with
              | error e => simp only [h5] at hok; simp at hok
              | ok ob => simp only [h5] at hok; simp at hok
          | cons x rest =>
              cases rest with
              | nil =>
                  obtain ⟨rule, e⟩ := x
                  simp only [h4] at hok
                  injection hok with h6
                  injection h6 with h7
                  refine ⟨hpass, ?_⟩
                  rw [← h7]
              | cons y rest2 =>
                  simp only [h4] at hok
                  simp at hok

end Banyan

namespace Banyan

/-- C2: after a successful Analyze that yields a localIndexScan, every key
of the condition map is a SERIES-LOCAL rule, and for every rule the map
binds exactly the subsequence of the given conditions classified to that
rule, in the order the conditions were given (no binding when none). -/
theorem C2_conditionMap (s : Schema) (uis : UnresolvedIndexScan) (lp : LocalIndexScan)
    (hok : uis.analyze s = .ok (.localIndexScan lp)) :
    (∀ kv ∈ lp.conditionMap, kv.1.location = .series)
    ∧ (∀ r : IndexRule,
        mlookup lp.conditionMap r =
          (if uis.conditions.filter (classifiesLocalTo s r) = [] then none
           else some (uis.conditions.filter (classifiesLocalTo s r)))) := by
  obtain ⟨hpass, hmap, hglob⟩ := analyze_local_elim uis s lp hok
  constructor
  · rw [hmap]
    exact classifyMap_keys s uis.conditions [] (by simp)
  · intro r
    rw [hmap, mlookup_classifyMap]
    simp [mlookup, mergeSpec]

/-- Witness for C2 at the schema sW and the plan with two predicates on one
SERIES-LOCAL rule: a single key holding both expressions in order. -/
theorem C2_conditionMap_witness :
    uisC2.analyze sW = .ok (.localIndexScan lpC2)
    ∧ mlookup lpC2.conditionMap rSeriesA =
        (if uisC2.conditions.filter (classifiesLocalTo sW rSeriesA) = [] then none
         else some (uisC2.conditions.filter (classifiesLocalTo sW rSeriesA))) :=
  ⟨by decide, (C2_conditionMap sW uisC2 lpC2 (by decide)).2 rSeriesA⟩

/-- C3: a resolvable binary predicate whose tag the schema binds but for
which no index rule is defined makes Analyze fail with IndexNotDefined
naming that tag (the analysis is pure: no execution context or storage is
involved, and no plan is returned), provided the conditions before it pass. -/
theorem C3_indexNotDefined (s : Schema) (uis : UnresolvedIndexScan)
    (pre rest : List Expr) (t : String) (op : Nat) (v : List Nat)
    (hconds : uis.conditions = pre ++ .binary t op v :: rest)
    (hpre : ∀ c ∈ pre, passes s c = true)
    (htag : t ∈ s.tags)
    (hundef : slookup s.indexRules t = none) :
    uis.analyze s = .error (.indexNotDefined t) := by
  have hfail : passes s (.binary t op v) = false := by
    simp [passes, hundef]
  have herr : errOf s (.binary t op v) = .indexNotDefined t := by
    simp [errOf, htag]
  rw [UnresolvedIndexScan.analyze, hconds]
  simp only [classifyAux_error_first s pre (.binary t op v) rest ([], []) hpre hfail,
    herr]

/-- Witness for C3: the plan with one passing predicate followed by a
predicate on the indexed-nowhere tag x. -/
theorem C3_indexNotDefined_witness :
    (uisC3.conditions = [Expr.binary "a" 0 [1]] ++ Expr.binary "x" 0 [2] :: []
      ∧ (∀ c ∈ [Expr.binary "a" 0 [1]], passes sW c = true)
      ∧ "x" ∈ sW.tags
      ∧ slookup sW.indexRules "x" = none)
    ∧ uisC3.analyze sW = .error (.indexNotDefined "x") :=
  ⟨⟨rfl, by decide, by decide, by decide⟩,
   C3_indexNotDefined sW uisC3 [Expr.binary "a" 0 [1]] [] "x" 0 [2] rfl (by decide)
     (by decide) (by decide)⟩

/-- C7: when the conditions classify to exactly one GLOBAL (rule, expr)
pair and the projection resolves, Analyze returns the GlobalIndexScan bound
to that single rule and that single expression — and the result does not
depend on the entity of the plan. -/
theorem C7_globalScan (s : Schema) (uis : UnresolvedIndexScan) (r : IndexRule)
    (e : Expr) (refs : List (List String))
    (hpass : ∀ c ∈ uis.conditions, passes s c = true)
    (hproj : (if uis.projectionFields.isEmpty then Except.ok []
              else s.createRef uis.projectionFields) = .ok refs)
    (hglob : globalPairs s uis.conditions = [(r, e)]) :
    uis.analyze s =
      .ok (.globalIndexScan ⟨s, refs, uis.metadataGroup, uis.metadataName, r, e⟩)
    ∧ ∀ ent : Entity,
        UnresolvedIndexScan.analyze { uis with entity := ent } s =
          .ok (.globalIndexScan ⟨s, refs, uis.metadataGroup, uis.metadataName, r, e⟩) := by
  constructor
  · rw [analyze_route s uis refs hpass hproj, hglob]
  · intro ent
    rw [analyze_route s { uis with entity := ent } refs hpass hproj, hglob]

/-- Witness for C7 at the schema sW: one local and one global predicate. -/
theorem C7_globalScan_witness :
    ((∀ c ∈ uisC7.conditions, passes sW c = true)
      ∧ (if uisC7.projectionFields.isEmpty then Except.ok []
         else sW.createRef uisC7.projectionFields) = .ok []
      ∧ globalPairs sW uisC7.conditions = [(gRuleW, Expr.binary "gt" 0 [2])])
    ∧ uisC7.analyze sW =
        .ok (.globalIndexScan ⟨sW, [], "g", "n", gRuleW, Expr.binary "gt" 0 [2]⟩)
    ∧ UnresolvedIndexScan.analyze { uisC7 with entity := [] } sW =
        .ok (.globalIndexScan ⟨sW, [], "g", "n", gRuleW, Expr.binary "gt" 0 [2]⟩) :=
  ⟨⟨by decide, by decide, by decide⟩,
   (C7_globalScan sW uisC7 gRuleW (Expr.binary "gt" 0 [2]) [] (by decide) (by decide)
     (by decide)).1,
   (C7_globalScan sW uisC7 gRuleW (Expr.binary "gt" 0 [2]) [] (by decide) (by decide)
     (by decide)).2 []⟩

/-- C1 counterexample: two predicates that both target the one single
GLOBAL rule of sC1 (one distinct global rule touched) still fail with
MultipleGlobalIndexes, because the code counts global predicates, not
distinct rules. -/
theorem C1_counterexample :
    uisC1.analyze sC1 = .error .multipleGlobalIndexes
    ∧ ((globalPairs sC1 uisC1.conditions).map Prod.fst).dedup.length = 1 := by
  exact ⟨by decide, by decide⟩

/-- C1 (amended): for plans whose conditions reach the routing step with at
least one global pair collected (all conditions pass, projection resolves),
Analyze fails with MultipleGlobalIndexes iff the conditions contain more
than one predicate targeting a GLOBAL rule — counting predicates, not
distinct rules. -/
theorem C1_amended_mgi (s : Schema) (uis : UnresolvedIndexScan)
    (refs : List (List String))
    (hpass : ∀ c ∈ uis.conditions, passes s c = true)
    (hproj : (if uis.projectionFields.isEmpty then Except.ok []
              else s.createRef uis.projectionFields) = .ok refs)
    (hne : globalPairs s uis.conditions ≠ []) :
    (uis.analyze s = .error .multipleGlobalIndexes ↔
      1 < (globalPairs s uis.conditions).length) := by
  rw [analyze_route s uis refs hpass hproj]
  cases hg : globalPairs s uis.conditions with
  | nil => exact absurd hg hne
  | cons x rest =>
      cases rest with
      | nil =>
          obtain ⟨rule, e⟩ := x
          simp
      | cons y rest2 =>
          simp

/-- Witness for the amended C1: the two-predicates-one-rule plan errs and
its global pair count exceeds one. -/
theorem C1_amended_mgi_witness :
    ((∀ c ∈ uisC1.conditions, passes sC1 c = true)
      ∧ (if uisC1.projectionFields.isEmpty then Except.ok []
         else sC1.createRef uisC1.projectionFields) = .ok []
      ∧ globalPairs sC1 uisC1.conditions ≠ [])
    ∧ (uisC1.analyze sC1 = .error .multipleGlobalIndexes ↔
        1 < (globalPairs sC1 uisC1.conditions).length) :=
  ⟨⟨by decide, by decide, by decide⟩,
   C1_amended_mgi sC1 uisC1 [] (by decide) (by decide) (by decide)⟩

/-- C10: a resolvable binary predicate whose tag is defined but whose rule
is located neither SERIES-LOCAL nor GLOBAL is silently dropped: its
classification step succeeds leaving the state unchanged (no error), and
whenever Analyze succeeds the predicate appears neither under any key of a
local plan's condition map nor as the expression a global plan is bound to. -/
theorem C10_unspecifiedDropped (s : Schema) (t : String) (op : Nat) (v : List Nat)
    (r : IndexRule)
    (htag : t ∈ s.tags)
    (hdef : slookup s.indexRules t = some r)
    (hloc : r.location = .unspecified) :
    (∀ st : CondState, classifyStep s st (.binary t op v) = .ok st)
    ∧ (∀ (uis : UnresolvedIndexScan) (lp : LocalIndexScan),
        uis.analyze s = .ok (.localIndexScan lp) →
        ∀ kv ∈ lp.conditionMap, Expr.binary t op v ∉ kv.2)
    ∧ (∀ (uis : UnresolvedIndexScan) (g : GlobalIndexScan),
        uis.analyze s = .ok (.globalIndexScan g) → g.expr ≠ .binary t op v) := by
  refine ⟨?_, ?_, ?_⟩
  · intro st
    simp [classifyStep, htag, hdef, hloc]
  · intro uis lp hok kv hkv hmem
    obtain ⟨hpass, hmap, hglob⟩ := analyze_local_elim uis s lp hok
    rw [hmap] at hkv
    have hval := classifyMap_val s uis.conditions [] (by simp) kv hkv
      (.binary t op v) hmem
    rw [classifiesLocalTo] at hval
    rw [hdef] at hval
    simp at hval
    obtain ⟨h1, h2⟩ := hval
    rw [← h1, hloc] at h2
    cases h2
  · intro uis g hok heq
    obtain ⟨hpass, hglob⟩ := analyze_global_elim uis s g hok
    have hmem : (g.globalIndexRule, g.expr) ∈ globalPairs s uis.conditions := by
      rw [hglob]; simp
    obtain ⟨t2, op2, v2, he, hs2, hl2⟩ := mem_globalPairs s uis.conditions _ hmem
    have he2 : g.expr = Expr.binary t2 op2 v2 := he
    have hs3 : slookup s.indexRules t2 = some g.globalIndexRule := hs2
    have hl3 : g.globalIndexRule.location = Location.global := hl2
    rw [heq] at he2
    injection he2 with ht2 hop2 hv2
    rw [← ht2, hdef] at hs3
    injection hs3 with h3
    rw [← h3, hloc] at hl3
    cases hl3

/-- Witness for C10: the plan with a predicate on the unspecified-location
tag u and a local predicate; the u predicate leaves no trace in the plan. -/
theorem C10_unspecifiedDropped_witness :
    ("u" ∈ sW.tags ∧ slookup sW.indexRules "u" = some rUnspec
      ∧ rUnspec.location = .unspecified)
    ∧ classifyStep sW ([], []) (.binary "u" 5 [9]) = .ok ([], [])
    ∧ (uisC10.analyze sW = .ok (.localIndexScan lpC10)
      ∧ Expr.binary "u" 5 [9] ∉ [Expr.binary "a" 0 [1]]) :=
  ⟨⟨by decide, by decide, rfl⟩,
   (C10_unspecifiedDropped sW "u" 5 [9] rUnspec (by decide) (by decide) rfl).1 ([], []),
   ⟨by decide,
    (C10_unspecifiedDropped sW "u" 5 [9] rUnspec (by decide) (by decide) rfl).2.1 uisC10
      lpC10 (by decide) (rSeriesA, [Expr.binary "a" 0 [1]]) (by decide)⟩⟩

end Banyan

namespace Banyan

/-! Lemmas for plan identity. -/

lemma mlookup_mem (m : List (IndexRule × List Expr)) (r : IndexRule) (v : List Expr)
    (h : mlookup m r = some v) : (r, v) ∈ m := by
  induction m with
  | nil => simp [mlookup] at h
  | cons kv rest ih =>
      rw [mlookup] at h
      by_cases h1 : kv.1 = r
      · rw [if_pos h1] at h
        injection h with h2
        exact List.mem_cons.mpr (Or.inl (by rw [← h1, ← h2]))
      · rw [if_neg h1] at h
        exact List.mem_cons.mpr (Or.inr (ih h))

lemma mem_mlookup_nodup (m : List (IndexRule × List Expr))
    (hnd : (m.map Prod.fst).Nodup) :
    ∀ kv ∈ m, mlookup m kv.1 = some kv.2 := by
  induction m with
  | nil => intro kv h; simp at h
  | cons kv0 rest ih =>
      intro kv hkv
      simp only [List.map_cons, List.nodup_cons] at hnd
      obtain ⟨hn1, hn2⟩ := hnd
      rcases List.mem_cons.mp hkv with h1 | h1
      · rw [h1, mlookup, if_pos rfl]
      · rw [mlookup]
        have hne : kv0.1 ≠ kv.1 := by
          intro he
          exact hn1 (he ▸ (List.mem_map.mpr ⟨kv, h1, rfl⟩))
        rw [if_neg hne]
        exact ih hn2 kv h1

lemma condMapEqual_iff (a b : List (IndexRule × List Expr)) :
    condMapEqual a b = true ↔
      ((∀ kv ∈ a, mlookup b kv.1 = some kv.2)
        ∧ (∀ kv ∈ b, mlookup a kv.1 = some kv.2)) := by
  simp [condMapEqual, List.all_eq_true]

lemma condMapEqual_refl (m : List (IndexRule × List Expr))
    (hnd : (m.map Prod.fst).Nodup) : condMapEqual m m = true := by
  rw [condMapEqual_iff]
  exact ⟨mem_mlookup_nodup m hnd, mem_mlookup_nodup m hnd⟩

lemma condMapEqual_symm (a b : List (IndexRule × List Expr))
    (h : condMapEqual a b = true) : condMapEqual b a = true := by
  rw [condMapEqual_iff] at h ⊢
  exact ⟨h.2, h.1⟩

lemma condMapEqual_trans (a b c : List (IndexRule × List Expr))
    (hab : condMapEqual a b = true) (hbc : condMapEqual b c = true) :
    condMapEqual a c = true := by
  rw [condMapEqual_iff] at hab hbc ⊢
  constructor
  · intro kv hkv
    exact hbc.1 (kv.1, kv.2) (mlookup_mem b kv.1 kv.2 (hab.1 kv hkv))
  · intro kv hkv
    exact hab.2 (kv.1, kv.2) (mlookup_mem b kv.1 kv.2 (hbc.2 kv hkv))

lemma equal_iff (i o : LocalIndexScan) :
    LocalIndexScan.equal i (.localIndexScan o) = true ↔
      (i.metadataGroup = o.metadataGroup ∧ i.metadataName = o.metadataName
       ∧ i.startTime = o.startTime ∧ i.endTime = o.endTime
       ∧ entityMarshal i.entity = entityMarshal o.entity
       ∧ i.projectionFieldRefs = o.projectionFieldRefs
       ∧ i.schema = o.schema
       ∧ condMapEqual i.conditionMap o.conditionMap = true
       ∧ i.orderBy = o.orderBy) := by
  simp [LocalIndexScan.equal, Bool.and_eq_true, and_assoc]

/-- C8 counterexample: a plan whose condition map holds two entries is
Equal to itself, yet two enumeration orders of its condition map (both
admissible for a Go map range) produce different String output — so equal
plans need not stringify identically and repeated String calls need not
agree. -/
theorem C8_counterexample :
    LocalIndexScan.equal pC8 (.localIndexScan pC8) = true
    ∧ pC8.conditionMap.Perm enumC8
    ∧ pC8.stringWith pC8.conditionMap ≠ pC8.stringWith enumC8 := by
  refine ⟨by decide, ?_, by decide⟩
  exact List.Perm.swap (rSeriesB, [Expr.binary "c" 0 [2]]) (rSeriesA, [Expr.binary "a" 0 [1]]) []

/-- C8 (amended): on localIndexScan plans whose condition-map keys are
duplicate-free (as analysis produces them), Equal is an equivalence
relation; String agrees with Equal up to the enumeration order of the
condition map — two Equal plans stringified over one common enumeration
give character-identical output, with the fixed field order start, end,
group, name, conditions joined by AND, projection joined by commas; and
String is a single stable string whenever the condition map holds at most
one entry. -/
theorem C8_amended (p q w : LocalIndexScan)
    (hnd : (p.conditionMap.map Prod.fst).Nodup) :
    LocalIndexScan.equal p (.localIndexScan p) = true
    ∧ (LocalIndexScan.equal p (.localIndexScan q) = true →
        LocalIndexScan.equal q (.localIndexScan p) = true)
    ∧ (LocalIndexScan.equal p (.localIndexScan q) = true →
        LocalIndexScan.equal q (.localIndexScan w) = true →
        LocalIndexScan.equal p (.localIndexScan w) = true)
    ∧ (∀ enum, LocalIndexScan.equal p (.localIndexScan q) = true →
        p.stringWith enum = q.stringWith enum)
    ∧ (p.conditionMap.length ≤ 1 →
        ∀ e1 e2, e1.Perm p.conditionMap → e2.Perm p.conditionMap →
          p.stringWith e1 = p.stringWith e2) := by
  refine ⟨?_, ?_, ?_, ?_, ?_⟩
  · rw [equal_iff]
    exact ⟨rfl, rfl, rfl, rfl, rfl, rfl, rfl, condMapEqual_refl _ hnd, rfl⟩
  · intro h
    rw [equal_iff] at h ⊢
    obtain ⟨h1, h2, h3, h4, h5, h6, h7, h8, h9⟩ := h
    exact ⟨h1.symm, h2.symm, h3.symm, h4.symm, h5.symm, h6.symm, h7.symm,
      condMapEqual_symm _ _ h8, h9.symm⟩
  · intro hab hbc
    rw [equal_iff] at hab hbc ⊢
    obtain ⟨a1, a2, a3, a4, a5, a6, a7, a8, a9⟩ := hab
    obtain ⟨b1, b2, b3, b4, b5, b6, b7, b8, b9⟩ := hbc
    exact ⟨a1.trans b1, a2.trans b2, a3.trans b3, a4.trans b4, a5.trans b5,
      a6.trans b6, a7.trans b7, condMapEqual_trans _ _ _ a8 b8, a9.trans b9⟩
  · intro enum h
    rw [equal_iff] at h
    obtain ⟨h1, h2, h3, h4, h5, h6, h7, h8, h9⟩ := h
    simp only [LocalIndexScan.stringWith]
    rw [h1, h2, h3, h4, h6]
  · intro hlen e1 e2 he1 he2
    cases hml : p.conditionMap with
    | nil =>
        rw [hml] at he1 he2
        rw [List.perm_nil.mp he1, List.perm_nil.mp he2]
    | cons kv rest =>
        cases rest with
        | nil =>
            rw [hml] at he1 he2
            rw [List.perm_singleton.mp he1, List.perm_singleton.mp he2]
        | cons kv2 rest2 =>
            rw [hml] at hlen
            simp at hlen

/-- Witness for the amended C8: the two-entry plan for the equivalence and
string-agreement parts, the one-entry plan for the stability part. -/
theorem C8_amended_witness :
    ((pC8.conditionMap.map Prod.fst).Nodup
      ∧ (lpC10.conditionMap.map Prod.fst).Nodup)
    ∧ LocalIndexScan.equal pC8 (.localIndexScan pC8) = true
    ∧ pC8.stringWith enumC8 = pC8.stringWith enumC8
    ∧ lpC10.stringWith lpC10.conditionMap = lpC10.stringWith lpC10.conditionMap :=
  ⟨⟨by decide, by decide⟩,
   (C8_amended pC8 pC8 pC8 (by decide)).1,
   (C8_amended pC8 pC8 pC8 (by decide)).2.2.2.1 enumC8
     (C8_amended pC8 pC8 pC8 (by decide)).1,
   (C8_amended lpC10 lpC10 lpC10 (by decide)).2.2.2.2 (by decide)
     lpC10.conditionMap lpC10.conditionMap (List.Perm.refl _) (List.Perm.refl _)⟩

end Banyan
